import Mathlib

/-!
Shallow embedding of the contact-manager core of `main.py`: the `Phone` and
`Birthday` value objects, `Record`, `AddressBook`, and the upcoming-birthday
scheduler (`get_upcoming_birthdays`, `adjust_for_weekend`,
`find_next_weekday`, `date_to_string`), together with the fragments of
CPython's `datetime` library the source relies on (`date`, `toordinal`,
`weekday`, `replace`, `timedelta` addition, `strptime` with format
`"%d.%m.%Y"`).  Character-level string behaviour is modelled over the ASCII
range: digit tests use the ASCII digits `'0'..'9'` (CPython's `str.isdigit`
and the `\d` class of `strptime` additionally accept non-ASCII Unicode
digits; theorems quantifying over arbitrary strings are scoped to ASCII
inputs where that difference could matter).
-/

/-- Error values raised by the program.  The source raises `ValueError` for
every validation failure and every phone-lookup miss; the command layer's
`input_error` decorator additionally distinguishes `KeyError` and
`IndexError`, so those are the error kinds that exist in this program. -/
inductive PyError where
  | valueError (msg : String)
  | keyError (msg : String)
  | indexError (msg : String)
deriving DecidableEq

instance {ε α : Type} [DecidableEq ε] [DecidableEq α] : DecidableEq (Except ε α) :=
  fun x y =>
    match x, y with
    | .ok a, .ok b =>
      if h : a = b then isTrue (by rw [h])
      else isFalse (fun hc => by cases hc; exact h rfl)
    | .error a, .error b =>
      if h : a = b then isTrue (by rw [h])
      else isFalse (fun hc => by cases hc; exact h rfl)
    | .ok _, .error _ => isFalse (fun hc => by cases hc)
    | .error _, .ok _ => isFalse (fun hc => by cases hc)

/-- Exception class of an error value — the only kind information Python's
`except` clauses can dispatch on. -/
def PyError.kindName : PyError → String
  | .valueError _ => "ValueError"
  | .keyError _ => "KeyError"
  | .indexError _ => "IndexError"

/-- Message carried by an error value. -/
def PyError.message : PyError → String
  | .valueError m => m
  | .keyError m => m
  | .indexError m => m

/-- A proleptic-Gregorian calendar date (CPython `datetime.date` field
triple). -/
structure Date where
  year : Nat
  month : Nat
  day : Nat
deriving DecidableEq

/-- Gregorian leap-year rule, as in CPython `datetime._is_leap`. -/
def isLeapYear (y : Nat) : Bool :=
  y % 4 == 0 && (y % 100 != 0 || y % 400 == 0)

/-- Number of days in a month, as in CPython `datetime._days_in_month`. -/
def daysInMonth (y m : Nat) : Nat :=
  if m = 2 then (if isLeapYear y then 29 else 28)
  else if m = 4 ∨ m = 6 ∨ m = 9 ∨ m = 11 then 30
  else 31

/-- CPython's `_DAYS_BEFORE_MONTH` table (cumulative non-leap month lengths;
the index-0 sentinel of the original list is irrelevant and mapped to 0). -/
def daysBeforeMonthTable : Nat → Nat
  | 1 => 0
  | 2 => 31
  | 3 => 59
  | 4 => 90
  | 5 => 120
  | 6 => 151
  | 7 => 181
  | 8 => 212
  | 9 => 243
  | 10 => 273
  | 11 => 304
  | 12 => 334
  | _ => 0

/-- Days in year `y` strictly before month `m`, as in CPython
`datetime._days_before_month`: the table entry plus one when the month is
past February in a leap year. -/
def daysBeforeMonth (y m : Nat) : Nat :=
  daysBeforeMonthTable m + (if 2 < m ∧ isLeapYear y then 1 else 0)

/-- Days before January 1st of year `y`, as in CPython
`datetime._days_before_year`: `(y-1)*365 + (y-1)//4 - (y-1)//100 +
(y-1)//400`. -/
def daysBeforeYear (y : Nat) : Nat :=
  (y - 1) * 365 + (y - 1) / 4 - (y - 1) / 100 + (y - 1) / 400

/-- CPython `date.toordinal`: day count with 0001-01-01 mapped to 1. -/
def Date.toOrdinal (dt : Date) : Nat :=
  daysBeforeYear dt.year + daysBeforeMonth dt.year dt.month + dt.day

/-- CPython `date.weekday`: Monday = 0 … Sunday = 6. -/
def Date.weekday (dt : Date) : Nat :=
  (dt.toOrdinal + 6) % 7

/-- Structural well-formedness of a date's month/day fields (no upper year
bound; `Date.valid` adds CPython's year cap). -/
def Date.okMD (dt : Date) : Prop :=
  1 ≤ dt.year ∧ 1 ≤ dt.month ∧ dt.month ≤ 12 ∧
    1 ≤ dt.day ∧ dt.day ≤ daysInMonth dt.year dt.month

instance (dt : Date) : Decidable dt.okMD := by
  unfold Date.okMD; infer_instance

/-- Full CPython date validity: field ranges plus `MINYEAR ≤ year ≤ MAXYEAR`. -/
def Date.valid (dt : Date) : Prop :=
  dt.okMD ∧ dt.year ≤ 9999

instance (dt : Date) : Decidable dt.valid := by
  unfold Date.valid; infer_instance

/-- Next calendar day (day increment used to interpret `timedelta` addition). -/
def Date.succ (dt : Date) : Date :=
  if dt.day < daysInMonth dt.year dt.month then ⟨dt.year, dt.month, dt.day + 1⟩
  else if dt.month < 12 then ⟨dt.year, dt.month + 1, 1⟩
  else ⟨dt.year + 1, 1, 1⟩

/-- CPython `date + timedelta(days=n)` for `n ≥ 0` (as iterated day
increment; the scheduler only ever adds 1–7 days). -/
def Date.addDays (dt : Date) : Nat → Date
  | 0 => dt
  | n + 1 => (Date.addDays dt n).succ

/-- CPython `date.__lt__`: lexicographic comparison of the field triples. -/
def dateLt (a b : Date) : Bool :=
  decide (a.year < b.year) ||
    (a.year == b.year &&
      (decide (a.month < b.month) ||
        (a.month == b.month && decide (a.day < b.day))))

/-- CPython `date(year, month, day)` constructor with its validation and
error messages (`datetime._check_date_fields`). -/
def mkDate (y m d : Nat) : Except PyError Date :=
  if y < 1 ∨ 9999 < y then
    .error (.valueError ("year " ++ toString y ++ " is out of range"))
  else if m < 1 ∨ 12 < m then
    .error (.valueError "month must be in 1..12")
  else if d < 1 ∨ daysInMonth y m < d then
    .error (.valueError "day is out of range for month")
  else .ok ⟨y, m, d⟩

/-- CPython `date.replace(year=y)`: rebuilds the date with the same month and
day, re-running constructor validation (this is what raises on 29 February
projected onto a non-leap year). -/
def dateReplaceYear (dt : Date) (y : Nat) : Except PyError Date :=
  mkDate y dt.month dt.day

/-- Digit character for `n % 10` (code point `48 + n % 10`). -/
def digitChar (n : Nat) : Char :=
  Char.ofNat (48 + n % 10)

/-- Two-digit zero-padded decimal rendering (strftime `%d` / `%m`). -/
def pad2 (n : Nat) : List Char :=
  [digitChar (n / 10), digitChar n]

/-- Four-digit zero-padded decimal rendering (strftime `%Y` for four-digit
years, the only years the claims exercise). -/
def pad4 (n : Nat) : List Char :=
  [digitChar (n / 1000), digitChar (n / 100), digitChar (n / 10), digitChar n]

/-- The source's `date_to_string`: `date.strftime("%d.%m.%Y")`. -/
def date_to_string (dt : Date) : String :=
  ⟨pad2 dt.day ++ '.' :: pad2 dt.month ++ '.' :: pad4 dt.year⟩

/-- Numeric value of a digit string (most significant first). -/
def digitsToNat (cs : List Char) : Nat :=
  cs.foldl (fun a c => a * 10 + (c.toNat - 48)) 0

/-- Split a character list at every `'.'` (CPython `str.split('.')` /
the literal-dot separators of the compiled `strptime` pattern). -/
def splitDot : List Char → List (List Char)
  | [] => [[]]
  | c :: rest =>
    if c = '.' then [] :: splitDot rest
    else
      match splitDot rest with
      | [] => [[c]]
      | h :: t => (c :: h) :: t

/-- Inverse of `splitDot`: rejoin the pieces with `'.'` separators. -/
def joinDot : List (List Char) → List Char
  | [] => []
  | [a] => a
  | a :: rest => a ++ '.' :: joinDot rest

/-- Field acceptance of `strptime`'s `%d` (with bounds 1–31) and `%m` (with
bounds 1–12): one or two digit characters whose value lies in `[lo, hi]`
(zero padding optional; the compiled regex alternatives
`3[01]|[12]\d|0[1-9]|[1-9]` accept exactly these strings). -/
def parseField12 (lo hi : Nat) (cs : List Char) : Option Nat :=
  if (cs.length = 1 ∨ cs.length = 2) ∧ cs.all Char.isDigit then
    if lo ≤ digitsToNat cs ∧ digitsToNat cs ≤ hi then some (digitsToNat cs)
    else none
  else none

/-- Field acceptance of `strptime`'s `%Y`: exactly four digit characters. -/
def parseField4 (cs : List Char) : Option Nat :=
  if cs.length = 4 ∧ cs.all Char.isDigit then some (digitsToNat cs) else none

/-- Regex phase of `strptime(s, "%d.%m.%Y")`: the whole string must be
day-field, literal dot, month-field, literal dot, year-field. -/
def parseDMY (cs : List Char) : Option (Nat × Nat × Nat) :=
  match splitDot cs with
  | [dcs, mcs, ycs] =>
    match parseField12 1 31 dcs, parseField12 1 12 mcs, parseField4 ycs with
    | some d, some m, some y => some (d, m, y)
    | _, _, _ => none
  | _ => none

/-- `datetime.strptime(s, "%d.%m.%Y").date()`: regex match, then date
construction (which validates day against month length and raises
`ValueError` otherwise). -/
def strptimeDMY (cs : List Char) : Except PyError Date :=
  match parseDMY cs with
  | none => .error (.valueError "time data does not match format")
  | some (d, m, y) => mkDate y m d

/-- The `Phone` field: wraps its raw string value. -/
structure Phone where
  value : String
deriving DecidableEq

/-- CPython `str.isdigit` over the ASCII range: non-empty and all ASCII
digits. -/
def pyIsdigit (s : String) : Bool :=
  !s.data.isEmpty && s.data.all Char.isDigit

/-- `Phone.__init__`: accepts exactly length-10 all-digit strings, otherwise
raises `ValueError("Phone number must contain 10 digits.")`. -/
def Phone.new (value : String) : Except PyError Phone :=
  if value.length = 10 ∧ pyIsdigit value then .ok ⟨value⟩
  else .error (.valueError "Phone number must contain 10 digits.")

/-- The `Birthday` field: wraps the raw string it was constructed from. -/
structure Birthday where
  value : String
deriving DecidableEq

/-- `Birthday.__init__`: runs `strptime(value, "%d.%m.%Y")` and stores the
raw string on success; any `ValueError` is replaced by
`ValueError("Invalid date format. Use DD.MM.YYYY")`. -/
def Birthday.new (value : String) : Except PyError Birthday :=
  match strptimeDMY value.data with
  | .ok _ => .ok ⟨value⟩
  | .error _ => .error (.valueError "Invalid date format. Use DD.MM.YYYY")

/-- One contact (`Record`): a name (the `Name` field wraps its string with no
validation), an ordered phone list, and an optional birthday. -/
structure Record where
  name : String
  phones : List Phone
  birthday : Option Birthday
deriving DecidableEq

/-- `Record.__init__(name)`: never fails, any string is accepted as a name. -/
def Record.new (name : String) : Record :=
  ⟨name, [], none⟩

/-- `Record.find_phone`: first phone whose textual value equals the
argument. -/
def Record.find_phone (r : Record) (phone : String) : Option Phone :=
  r.phones.find? (fun p => p.value == phone)

/-- Index of the first phone with the given textual value.  This is the
index `self.phones.index(phone_instance)` computes in `edit_phone`: `Field`
objects compare by identity, and the object returned by `find_phone` is the
first value match, so `index` returns that first matching position. -/
def phoneIndexFirst (ps : List Phone) (phone : String) : Option Nat :=
  match ps with
  | [] => none
  | p :: rest =>
    if p.value = phone then some 0
    else (phoneIndexFirst rest phone).map (· + 1)

/-- Remove the first phone with the given textual value (CPython
`list.remove` of the object `find_phone` returned). -/
def removeFirstPhone (ps : List Phone) (phone : String) : List Phone :=
  match ps with
  | [] => []
  | p :: rest => if p.value = phone then rest else p :: removeFirstPhone rest phone

/-- Mutating `Record` methods are modelled as returning the outcome together
with the post-state of the record (Python mutates in place; on an exception
the record keeps whatever state it had when the exception was raised). -/
def Record.add_phone (r : Record) (phone : String) : Except PyError Unit × Record :=
  match Phone.new phone with
  | .error e => (.error e, r)
  | .ok p => (.ok (), { r with phones := r.phones ++ [p] })

/-- `Record.add_birthday`: validates and overwrites the birthday field. -/
def Record.add_birthday (r : Record) (d : String) : Except PyError Unit × Record :=
  match Birthday.new d with
  | .error e => (.error e, r)
  | .ok b => (.ok (), { r with birthday := some b })

/-- `Record.remove_phone`: removes the first match, raises
`ValueError("Phone number not found")` when there is none. -/
def Record.remove_phone (r : Record) (phone : String) : Except PyError Unit × Record :=
  match r.find_phone phone with
  | some _ => (.ok (), { r with phones := removeFirstPhone r.phones phone })
  | none => (.error (.valueError "Phone number not found"), r)

/-- `Record.edit_phone`: locates the first occurrence of the old value,
raises `ValueError("Old phone number not found")` when absent; otherwise the
right-hand side `Phone(new_phone)` is evaluated (and may raise) before the
list slot is assigned. -/
def Record.edit_phone (r : Record) (old_phone new_phone : String) :
    Except PyError Unit × Record :=
  match phoneIndexFirst r.phones old_phone with
  | none => (.error (.valueError "Old phone number not found"), r)
  | some i =>
    match Phone.new new_phone with
    | .error e => (.error e, r)
    | .ok p => (.ok (), { r with phones := r.phones.set i p })

/-- `AddressBook`: a `UserDict`, modelled as an insertion-ordered
association list with unique keys (CPython dict semantics). -/
structure AddressBook where
  data : List (String × Record)
deriving DecidableEq

/-- `AddressBook()`: the empty book. -/
def AddressBook.empty : AddressBook := ⟨[]⟩

/-- CPython `dict.__setitem__`: overwrite in place when the key is present
(keeping its position), append otherwise. -/
def dictSet (l : List (String × Record)) (k : String) (v : Record) :
    List (String × Record) :=
  match l with
  | [] => [(k, v)]
  | (k', v') :: rest =>
    if k' = k then (k', v) :: rest else (k', v') :: dictSet rest k v

/-- CPython `dict.get`: first (only) binding of the key, if any. -/
def dictGet (l : List (String × Record)) (k : String) : Option Record :=
  match l with
  | [] => none
  | (k', v) :: rest => if k' = k then some v else dictGet rest k

/-- `AddressBook.add_record`: `self.data[record.name.value] = record`. -/
def AddressBook.add_record (b : AddressBook) (r : Record) : AddressBook :=
  ⟨dictSet b.data r.name r⟩

/-- `AddressBook.find`: `self.data.get(name)`. -/
def AddressBook.find (b : AddressBook) (name : String) : Option Record :=
  dictGet b.data name

/-- `self.data.values()` in insertion order. -/
def AddressBook.records (b : AddressBook) : List Record :=
  b.data.map Prod.snd

/-- One element of the `get_upcoming_birthdays` result:
`{"name": ..., "birthday": congratulation_date_str}`. -/
structure BEntry where
  name : String
  birthday : String
deriving DecidableEq

/-- The source's `find_next_weekday`: add `weekday - start_date.weekday()`
days, first adding 7 whenever that difference is not positive. -/
def find_next_weekday (start_date : Date) (weekday : Nat) : Date :=
  let days_ahead : Int := (weekday : Int) - (start_date.weekday : Int)
  let days_ahead := if days_ahead ≤ 0 then days_ahead + 7 else days_ahead
  start_date.addDays days_ahead.toNat

/-- The source's `adjust_for_weekend`: Saturday (5) and Sunday (6) move to
the next Monday, every other weekday is returned unchanged. -/
def adjust_for_weekend (birthday : Date) : Date :=
  if birthday.weekday ≥ 5 then find_next_weekday birthday 0 else birthday

/-- Projection step of `get_upcoming_birthdays`: `replace(year=today.year)`,
then `replace(year=today.year + 1)` when the result is strictly before
`today`. -/
def projectBirthday (today d0 : Date) : Except PyError Date :=
  match dateReplaceYear d0 today.year with
  | .error e => .error e
  | .ok bty =>
    if dateLt bty today then dateReplaceYear bty (today.year + 1) else .ok bty

/-- Loop body of `get_upcoming_birthdays` for one record: `none` when the
record contributes no entry, `some` entry when it does, `error` when the
iteration raises. -/
def processRecord (today : Date) (days : Int) (r : Record) :
    Except PyError (Option BEntry) :=
  match r.birthday with
  | none => .ok none
  | some bd =>
    match strptimeDMY bd.value.data with
    | .error e => .error e
    | .ok d0 =>
      match projectBirthday today d0 with
      | .error e => .error e
      | .ok bty =>
        if 0 ≤ (bty.toOrdinal : Int) - (today.toOrdinal : Int) ∧
            (bty.toOrdinal : Int) - (today.toOrdinal : Int) ≤ days then
          .ok (some ⟨r.name, date_to_string (adjust_for_weekend bty)⟩)
        else .ok none

/-- The whole loop of `get_upcoming_birthdays` over the book's records in
iteration order; an exception anywhere aborts the call (the partially built
list is discarded). -/
def collectUpcoming (today : Date) (days : Int) :
    List Record → Except PyError (List BEntry)
  | [] => .ok []
  | r :: rest =>
    match processRecord today days r with
    | .error e => .error e
    | .ok none => collectUpcoming today days rest
    | .ok (some entry) =>
      match collectUpcoming today days rest with
      | .error e => .error e
      | .ok tail => .ok (entry :: tail)

/-- `AddressBook.get_upcoming_birthdays(days)`, with the ambient
`date.today()` made an explicit parameter. -/
def AddressBook.get_upcoming_birthdays (b : AddressBook) (today : Date)
    (days : Int) : Except PyError (List BEntry) :=
  collectUpcoming today days b.records

/-- Spec-side characterisation of the date strings `Birthday` accepts (the
amended form of claim C4): three dot-separated all-digit fields, day and
month of one or two digits (zero-padding optional), year of exactly four
digits, denoting a real calendar date with year at least 1. -/
def goodDateString (cs : List Char) : Prop :=
  ∃ dcs mcs ycs : List Char,
    cs = dcs ++ ('.' :: (mcs ++ ('.' :: ycs))) ∧
    dcs.all Char.isDigit ∧ (dcs.length = 1 ∨ dcs.length = 2) ∧
    mcs.all Char.isDigit ∧ (mcs.length = 1 ∨ mcs.length = 2) ∧
    ycs.all Char.isDigit ∧ ycs.length = 4 ∧
    1 ≤ digitsToNat ycs ∧
    1 ≤ digitsToNat mcs ∧ digitsToNat mcs ≤ 12 ∧
    1 ≤ digitsToNat dcs ∧
    digitsToNat dcs ≤ daysInMonth (digitsToNat ycs) (digitsToNat mcs)

/-! ## Arithmetic facts about the embedded date library -/

/-- Unfolding of the leap-year test into arithmetic conditions. -/
theorem isLeapYear_iff (y : Nat) :
    isLeapYear y = true ↔ (y % 4 = 0 ∧ (y % 100 ≠ 0 ∨ y % 400 = 0)) := by
  simp [isLeapYear]

/-- Every month has at least one day. -/
theorem daysInMonth_pos (y m : Nat) : 1 ≤ daysInMonth y m := by
  unfold daysInMonth
  split
  · split <;> omega
  · split <;> omega

/-- No month has more than 31 days. -/
theorem daysInMonth_le_31 (y m : Nat) : daysInMonth y m ≤ 31 := by
  unfold daysInMonth
  split
  · split <;> omega
  · split <;> omega

/-- The cumulative-days table steps by exactly the month length. -/
theorem daysBeforeMonth_succ (y m : Nat) (h1 : 1 ≤ m) (h2 : m ≤ 11) :
    daysBeforeMonth y (m + 1) = daysBeforeMonth y m + daysInMonth y m := by
  interval_cases m <;> cases hL : isLeapYear y <;>
    simp [daysBeforeMonth, daysBeforeMonthTable, daysInMonth, hL]

set_option maxHeartbeats 1000000 in
/-- Day count before a year grows by the year's length. -/
theorem daysBeforeYear_succ (y : Nat) (hy : 1 ≤ y) :
    daysBeforeYear (y + 1) =
      daysBeforeYear y + 365 + (if isLeapYear y then 1 else 0) := by
  have hiff := isLeapYear_iff y
  unfold daysBeforeYear
  simp only [Nat.add_sub_cancel]
  by_cases hL : isLeapYear y = true
  · rw [if_pos hL]
    have hp := hiff.mp hL
    omega
  · rw [if_neg hL]
    have hp : ¬(y % 4 = 0 ∧ (y % 100 ≠ 0 ∨ y % 400 = 0)) := fun hc => hL (hiff.mpr hc)
    omega

/-- The day increment adds one to the ordinal of any well-formed date. -/
theorem Date.toOrdinal_succ (dt : Date) (h : dt.okMD) :
    dt.succ.toOrdinal = dt.toOrdinal + 1 := by
  obtain ⟨hy, hm1, hm2, hd1, hd2⟩ := h
  unfold Date.succ Date.toOrdinal
  by_cases hd : dt.day < daysInMonth dt.year dt.month
  · rw [if_pos hd]
    dsimp only
    omega
  · rw [if_neg hd]
    by_cases hm : dt.month < 12
    · rw [if_pos hm]
      have hsucc := daysBeforeMonth_succ dt.year dt.month hm1 (by omega)
      dsimp only
      omega
    · rw [if_neg hm]
      have hm12 : dt.month = 12 := by omega
      have h31 : daysInMonth dt.year 12 = 31 := by simp [daysInMonth]
      dsimp only
      rw [hm12] at hd hd2 ⊢
      by_cases hL : isLeapYear dt.year = true
      · have hdb := daysBeforeYear_succ dt.year hy
        rw [if_pos hL] at hdb
        have hdbm12 : daysBeforeMonth dt.year 12 = 335 := by
          unfold daysBeforeMonth
          rw [if_pos ⟨by omega, hL⟩]
          decide
        have hdbm1 : daysBeforeMonth (dt.year + 1) 1 = 0 := by
          unfold daysBeforeMonth
          rw [if_neg (fun hc => by omega)]
          decide
        omega
      · have hdb := daysBeforeYear_succ dt.year hy
        rw [if_neg hL] at hdb
        have hdbm12 : daysBeforeMonth dt.year 12 = 334 := by
          unfold daysBeforeMonth
          rw [if_neg (fun hc => hL hc.2)]
          decide
        have hdbm1 : daysBeforeMonth (dt.year + 1) 1 = 0 := by
          unfold daysBeforeMonth
          rw [if_neg (fun hc => by omega)]
          decide
        omega

/-- The day increment preserves well-formedness. -/
theorem Date.okMD_succ (dt : Date) (h : dt.okMD) : dt.succ.okMD := by
  obtain ⟨hy, hm1, hm2, hd1, hd2⟩ := h
  have hpos1 := daysInMonth_pos dt.year (dt.month + 1)
  have hpos2 := daysInMonth_pos (dt.year + 1) 1
  unfold Date.succ Date.okMD
  by_cases hd : dt.day < daysInMonth dt.year dt.month
  · rw [if_pos hd]
    dsimp only
    omega
  · rw [if_neg hd]
    by_cases hm : dt.month < 12
    · rw [if_pos hm]
      dsimp only
      omega
    · rw [if_neg hm]
      dsimp only
      omega

/-- Day addition preserves well-formedness. -/
theorem Date.okMD_addDays (dt : Date) (h : dt.okMD) (n : Nat) :
    (dt.addDays n).okMD := by
  induction n with
  | zero => exact h
  | succ k ih => exact Date.okMD_succ _ ih

/-- Day addition shifts the ordinal by exactly the added count. -/
theorem Date.toOrdinal_addDays (dt : Date) (h : dt.okMD) (n : Nat) :
    (dt.addDays n).toOrdinal = dt.toOrdinal + n := by
  induction n with
  | zero => rfl
  | succ k ih =>
    have hk := Date.toOrdinal_succ (dt.addDays k) (Date.okMD_addDays dt h k)
    rw [Date.addDays, hk, ih]
    omega

/-- Day addition rotates the weekday modulo 7. -/
theorem Date.weekday_addDays (dt : Date) (h : dt.okMD) (n : Nat) :
    (dt.addDays n).weekday = (dt.weekday + n) % 7 := by
  unfold Date.weekday
  rw [Date.toOrdinal_addDays dt h n]
  omega

/-- Weekdays range over 0–6. -/
theorem Date.weekday_lt_7 (dt : Date) : dt.weekday < 7 :=
  Nat.mod_lt _ (by norm_num)

/-- With target weekday 0 the helper always takes the `days_ahead += 7`
branch and adds `7 - weekday` days. -/
theorem find_next_weekday_zero (dt : Date) :
    find_next_weekday dt 0 = dt.addDays (7 - dt.weekday) := by
  have h7 := dt.weekday_lt_7
  simp only [find_next_weekday]
  split
  · congr 1
    omega
  · exfalso
    omega


/-! ## Association-list (dict) lemmas -/

/-- Setting a key then reading it back yields the new value. -/
theorem dictGet_dictSet_self (l : List (String × Record)) (k : String) (v : Record) :
    dictGet (dictSet l k v) k = some v := by
  induction l with
  | nil => simp [dictSet, dictGet]
  | cons p rest ih =>
    obtain ⟨k', v'⟩ := p
    by_cases h : k' = k
    · simp [dictSet, dictGet, h]
    · simp [dictSet, dictGet, h, ih]

/-- Keys after a set are the old keys plus possibly the new key. -/
theorem mem_fst_dictSet (l : List (String × Record)) (k k'' : String) (v : Record) :
    k'' ∈ (dictSet l k v).map Prod.fst ↔ k'' ∈ l.map Prod.fst ∨ k'' = k := by
  induction l with
  | nil => simp [dictSet]
  | cons p rest ih =>
    obtain ⟨k', v'⟩ := p
    by_cases h : k' = k
    · subst h
      simp [dictSet]
      tauto
    · simp [dictSet, h, ih]
      tauto

/-- Setting a key preserves key uniqueness. -/
theorem nodup_fst_dictSet (l : List (String × Record)) (k : String) (v : Record)
    (h : (l.map Prod.fst).Nodup) : ((dictSet l k v).map Prod.fst).Nodup := by
  induction l with
  | nil => simp [dictSet]
  | cons p rest ih =>
    obtain ⟨k', v'⟩ := p
    rw [List.map_cons, List.nodup_cons] at h
    by_cases hk : k' = k
    · unfold dictSet
      rw [if_pos hk, List.map_cons, List.nodup_cons]
      exact h
    · unfold dictSet
      rw [if_neg hk, List.map_cons, List.nodup_cons]
      constructor
      · intro hc
        rcases (mem_fst_dictSet rest k k' v).mp hc with hmem | heq
        · exact h.1 hmem
        · exact hk heq
      · exact ih h.2

/-- Every binding after a set is the new binding or an old one. -/
theorem mem_dictSet (l : List (String × Record)) (k : String) (v : Record)
    (p : String × Record) (hp : p ∈ dictSet l k v) : p = (k, v) ∨ p ∈ l := by
  induction l with
  | nil =>
    simp [dictSet] at hp
    left
    exact hp
  | cons q rest ih =>
    obtain ⟨k', v'⟩ := q
    by_cases hk : k' = k
    · unfold dictSet at hp
      rw [if_pos hk] at hp
      rcases List.mem_cons.mp hp with h1 | h2
      · left
        rw [h1, hk]
      · right
        exact List.mem_cons_of_mem _ h2
    · unfold dictSet at hp
      rw [if_neg hk] at hp
      rcases List.mem_cons.mp hp with h1 | h2
      · right
        rw [h1]
        exact List.mem_cons_self _ _
      · rcases ih h2 with ha | hb
        · left
          exact ha
        · right
          exact List.mem_cons_of_mem _ hb

/-! ## Lemmas about the constructors of dates -/

/-- Inversion for a successful `date(...)` construction. -/
theorem mkDate_ok_valid {y m d : Nat} {dt : Date} (h : mkDate y m d = .ok dt) :
    dt.valid ∧ dt = ⟨y, m, d⟩ := by
  unfold mkDate at h
  split at h
  next hy => exact absurd h (by simp)
  next hy =>
    split at h
    next hm => exact absurd h (by simp)
    next hm =>
      split at h
      next hd => exact absurd h (by simp)
      next hd =>
        have he := Except.ok.inj h
        obtain rfl := he
        refine ⟨⟨?_, ?_⟩, rfl⟩
        · show 1 ≤ y ∧ 1 ≤ m ∧ m ≤ 12 ∧ 1 ≤ d ∧ d ≤ daysInMonth y m
          omega
        · show y ≤ 9999
          omega

/-- A successful birthday projection produces a valid date. -/
theorem projectBirthday_valid {today d0 bty : Date}
    (h : projectBirthday today d0 = .ok bty) : bty.valid := by
  unfold projectBirthday at h
  cases hr : dateReplaceYear d0 today.year with
  | error e =>
    rw [hr] at h
    simp at h
  | ok b0 =>
    rw [hr] at h
    dsimp only at h
    by_cases hlt : dateLt b0 today = true
    · rw [if_pos hlt] at h
      unfold dateReplaceYear at h
      exact (mkDate_ok_valid h).1
    · rw [if_neg hlt] at h
      obtain rfl := Except.ok.inj h
      unfold dateReplaceYear at hr
      exact (mkDate_ok_valid hr).1

/-! ## Lemmas about the scheduler loop -/

/-- An entry emitted for a record carries that record's name. -/
theorem processRecord_name {today : Date} {days : Int} {r : Record} {e : BEntry}
    (h : processRecord today days r = .ok (some e)) : e.name = r.name := by
  unfold processRecord at h
  split at h
  · exact absurd h (by simp)
  · split at h
    · exact absurd h (by simp)
    · split at h
      · exact absurd h (by simp)
      · split at h
        · simp at h
          rw [← h]
        · exact absurd h (by simp)

/-- Rewrite for a record with no birthday. -/
theorem processRecord_none {today : Date} {days : Int} {r : Record}
    (h : r.birthday = none) : processRecord today days r = .ok none := by
  unfold processRecord
  rw [h]

/-- Rewrite for a record whose stored birthday parses and projects. -/
theorem processRecord_some {today : Date} (days : Int) {r : Record}
    {bd : Birthday} {d0 bty : Date}
    (hb : r.birthday = some bd) (hs : strptimeDMY bd.value.data = .ok d0)
    (hp : projectBirthday today d0 = .ok bty) :
    processRecord today days r =
      if 0 ≤ (bty.toOrdinal : Int) - (today.toOrdinal : Int) ∧
          (bty.toOrdinal : Int) - (today.toOrdinal : Int) ≤ days then
        .ok (some ⟨r.name, date_to_string (adjust_for_weekend bty)⟩)
      else .ok none := by
  unfold processRecord
  simp only [hb, hs, hp]

/-- If the loop returned a list, every record's own step succeeded. -/
theorem collect_process_ok {today : Date} {days : Int} {rs : List Record}
    {res : List BEntry} (h : collectUpcoming today days rs = .ok res)
    {r : Record} (hr : r ∈ rs) : ∃ x, processRecord today days r = .ok x := by
  induction rs generalizing res with
  | nil => simp at hr
  | cons a rest ih =>
    rw [collectUpcoming] at h
    rcases List.mem_cons.mp hr with rfl | hmem
    · cases hp : processRecord today days r with
      | error e => rw [hp] at h; simp at h
      | ok x => exact ⟨x, rfl⟩
    · cases hp : processRecord today days a with
      | error e => rw [hp] at h; simp at h
      | ok x =>
        rw [hp] at h
        cases x with
        | none => exact ih h hmem
        | some entry =>
          cases hc : collectUpcoming today days rest with
          | error e => rw [hc] at h; simp at h
          | ok tail => exact ih hc hmem

/-- A record whose step emitted an entry contributes it to the result. -/
theorem collect_mem_of_some {today : Date} {days : Int} {rs : List Record}
    {res : List BEntry} (h : collectUpcoming today days rs = .ok res)
    {r : Record} (hr : r ∈ rs) {e : BEntry}
    (hp : processRecord today days r = .ok (some e)) : e ∈ res := by
  induction rs generalizing res with
  | nil => simp at hr
  | cons a rest ih =>
    rw [collectUpcoming] at h
    rcases List.mem_cons.mp hr with rfl | hmem
    · rw [hp] at h
      cases hc : collectUpcoming today days rest with
      | error e2 => rw [hc] at h; simp at h
      | ok tail =>
        rw [hc] at h
        simp at h
        rw [← h]
        exact List.mem_cons_self _ _
    · cases hq : processRecord today days a with
      | error e2 => rw [hq] at h; simp at h
      | ok x =>
        rw [hq] at h
        cases x with
        | none => exact ih h hmem
        | some entry =>
          cases hc : collectUpcoming today days rest with
          | error e2 => rw [hc] at h; simp at h
          | ok tail =>
            rw [hc] at h
            simp at h
            rw [← h]
            exact List.mem_cons_of_mem _ (ih hc hmem)

/-- Every entry of the result was emitted by some record of the list. -/
theorem collect_exists_of_mem {today : Date} {days : Int} {rs : List Record}
    {res : List BEntry} (h : collectUpcoming today days rs = .ok res)
    {e : BEntry} (he : e ∈ res) :
    ∃ r ∈ rs, processRecord today days r = .ok (some e) := by
  induction rs generalizing res with
  | nil =>
    rw [collectUpcoming] at h
    simp at h
    subst h
    simp at he
  | cons a rest ih =>
    rw [collectUpcoming] at h
    cases hq : processRecord today days a with
    | error e2 => rw [hq] at h; simp at h
    | ok x =>
      rw [hq] at h
      cases x with
      | none =>
        obtain ⟨r, hr, hpr⟩ := ih h he
        exact ⟨r, List.mem_cons_of_mem _ hr, hpr⟩
      | some entry =>
        cases hc : collectUpcoming today days rest with
        | error e2 => rw [hc] at h; simp at h
        | ok tail =>
          rw [hc] at h
          simp at h
          rw [← h] at he
          rcases List.mem_cons.mp he with rfl | hm
          · exact ⟨a, List.mem_cons_self _ _, hq⟩
          · obtain ⟨r, hr, hpr⟩ := ih hc hm
            exact ⟨r, List.mem_cons_of_mem _ hr, hpr⟩

/-! ## Lemmas about the date-string parser -/

/-- Numeric bounds of a digit character. -/
theorem char_isDigit_bounds {c : Char} (h : c.isDigit = true) :
    48 ≤ c.toNat ∧ c.toNat ≤ 57 := by
  simp [Char.isDigit] at h
  exact h

/-- Digit characters are never the separator dot. -/
theorem all_digits_dot_not_mem {cs : List Char}
    (h : cs.all Char.isDigit = true) : '.' ∉ cs := by
  intro hm
  rw [List.all_eq_true] at h
  exact absurd (h _ hm) (by decide)

/-- Splitting a dot-free list yields that list as the single piece. -/
theorem splitDot_no_dot (a : List Char) (ha : '.' ∉ a) : splitDot a = [a] := by
  induction a with
  | nil => rfl
  | cons c rest ih =>
    have hc : c ≠ '.' := by
      intro h
      subst h
      exact ha (List.mem_cons_self _ _)
    rw [splitDot, if_neg hc, ih (fun h => ha (List.mem_cons_of_mem _ h))]

/-- Splitting past a dot-free prefix peels it off as one piece. -/
theorem splitDot_append (a b : List Char) (ha : '.' ∉ a) :
    splitDot (a ++ '.' :: b) = a :: splitDot b := by
  induction a with
  | nil =>
    rw [List.nil_append, splitDot, if_pos rfl]
  | cons c rest ih =>
    have hc : c ≠ '.' := by
      intro h
      subst h
      exact ha (List.mem_cons_self _ _)
    rw [List.cons_append, splitDot, if_neg hc,
      ih (fun h => ha (List.mem_cons_of_mem _ h))]

/-- Splitting never produces an empty piece list. -/
theorem splitDot_ne_nil (cs : List Char) : splitDot cs ≠ [] := by
  cases cs with
  | nil => simp [splitDot]
  | cons c rest =>
    rw [splitDot]
    by_cases hc : c = '.'
    · rw [if_pos hc]
      simp
    · rw [if_neg hc]
      cases splitDot rest <;> simp

/-- Rejoining the split pieces restores the original list. -/
theorem joinDot_splitDot (cs : List Char) : joinDot (splitDot cs) = cs := by
  induction cs with
  | nil => rfl
  | cons c rest ih =>
    obtain ⟨h, t, he⟩ : ∃ h t, splitDot rest = h :: t := by
      cases hsp : splitDot rest with
      | nil => exact absurd hsp (splitDot_ne_nil rest)
      | cons h t => exact ⟨h, t, rfl⟩
    rw [he] at ih
    rw [splitDot]
    by_cases hc : c = '.'
    · rw [if_pos hc, hc, he]
      show '.' :: joinDot (h :: t) = '.' :: rest
      rw [ih]
    · rw [if_neg hc, he]
      cases t with
      | nil =>
        show c :: h = c :: rest
        rw [show joinDot [h] = h from rfl] at ih
        rw [ih]
      | cons h2 t2 =>
        show (c :: h) ++ '.' :: joinDot (h2 :: t2) = c :: rest
        rw [List.cons_append]
        rw [show joinDot (h :: h2 :: t2) = h ++ '.' :: joinDot (h2 :: t2) from rfl] at ih
        rw [ih]

/-- Folding digits from accumulator `a` stays below `(a + 1) * 10 ^ length`. -/
theorem digitsToNat_aux (cs : List Char) (a : Nat)
    (h : cs.all Char.isDigit = true) :
    cs.foldl (fun x c => x * 10 + (c.toNat - 48)) a < (a + 1) * 10 ^ cs.length := by
  induction cs generalizing a with
  | nil => simp
  | cons c rest ih =>
    rw [List.all_cons, Bool.and_eq_true] at h
    have hc := char_isDigit_bounds h.1
    have hstep := ih (a * 10 + (c.toNat - 48)) h.2
    rw [List.foldl_cons, List.length_cons]
    calc List.foldl (fun x c => x * 10 + (c.toNat - 48)) (a * 10 + (c.toNat - 48)) rest
        < (a * 10 + (c.toNat - 48) + 1) * 10 ^ rest.length := hstep
      _ ≤ (a + 1) * 10 ^ (rest.length + 1) := by
          rw [pow_succ]
          have : a * 10 + (c.toNat - 48) + 1 ≤ (a + 1) * 10 := by omega
          calc (a * 10 + (c.toNat - 48) + 1) * 10 ^ rest.length
              ≤ (a + 1) * 10 * 10 ^ rest.length :=
                Nat.mul_le_mul_right _ this
            _ = (a + 1) * (10 ^ rest.length * 10) := by ring

/-- A digit string's value is below `10 ^ length`. -/
theorem digitsToNat_lt (cs : List Char) (h : cs.all Char.isDigit = true) :
    digitsToNat cs < 10 ^ cs.length := by
  have := digitsToNat_aux cs 0 h
  simpa [digitsToNat] using this

/-- Inversion of a successful day/month field parse. -/
theorem parseField12_some {lo hi : Nat} {cs : List Char} {v : Nat}
    (h : parseField12 lo hi cs = some v) :
    (cs.length = 1 ∨ cs.length = 2) ∧ cs.all Char.isDigit = true ∧
      v = digitsToNat cs ∧ lo ≤ v ∧ v ≤ hi := by
  unfold parseField12 at h
  split at h
  next hc =>
    split at h
    next hb =>
      obtain rfl := Option.some.inj h
      exact ⟨hc.1, hc.2, rfl, hb.1, hb.2⟩
    next hb => simp at h
  next hc => simp at h

/-- Inversion of a successful year field parse. -/
theorem parseField4_some {cs : List Char} {v : Nat}
    (h : parseField4 cs = some v) :
    cs.length = 4 ∧ cs.all Char.isDigit = true ∧ v = digitsToNat cs := by
  unfold parseField4 at h
  split at h
  next hc =>
    obtain rfl := Option.some.inj h
    exact ⟨hc.1, hc.2, rfl⟩
  next hc => simp at h

/-- A good date string is accepted by the embedded `strptime`. -/
theorem strptimeDMY_ok_of_good (cs : List Char) (h : goodDateString cs) :
    ∃ dt : Date, strptimeDMY cs = .ok dt := by
  obtain ⟨dcs, mcs, ycs, hcs, hdd, hdl, hmd, hml, hyd, hyl, hy1, hm1, hm2, hd1, hd2⟩ := h
  have hddot := all_digits_dot_not_mem hdd
  have hmdot := all_digits_dot_not_mem hmd
  have hydot := all_digits_dot_not_mem hyd
  have hsplit : splitDot cs = [dcs, mcs, ycs] := by
    rw [hcs, splitDot_append _ _ hddot, splitDot_append _ _ hmdot,
      splitDot_no_dot _ hydot]
  have hylt : digitsToNat ycs < 10000 := by
    have := digitsToNat_lt ycs hyd
    rw [hyl] at this
    omega
  have hdim := daysInMonth_le_31 (digitsToNat ycs) (digitsToNat mcs)
  have hfd : parseField12 1 31 dcs = some (digitsToNat dcs) := by
    unfold parseField12
    rw [if_pos ⟨hdl, hdd⟩, if_pos ⟨hd1, by omega⟩]
  have hfm : parseField12 1 12 mcs = some (digitsToNat mcs) := by
    unfold parseField12
    rw [if_pos ⟨hml, hmd⟩, if_pos ⟨hm1, hm2⟩]
  have hfy : parseField4 ycs = some (digitsToNat ycs) := by
    unfold parseField4
    rw [if_pos ⟨hyl, hyd⟩]
  have hpd : parseDMY cs =
      some (digitsToNat dcs, digitsToNat mcs, digitsToNat ycs) := by
    unfold parseDMY
    rw [hsplit]
    dsimp only
    rw [hfd, hfm, hfy]
  refine ⟨⟨digitsToNat ycs, digitsToNat mcs, digitsToNat dcs⟩, ?_⟩
  unfold strptimeDMY
  rw [hpd]
  dsimp only
  unfold mkDate
  rw [if_neg (by omega), if_neg (by omega), if_neg (by omega)]

/-- A string accepted by the embedded `strptime` is a good date string. -/
theorem good_of_strptimeDMY_ok (cs : List Char) (dt : Date)
    (h : strptimeDMY cs = .ok dt) : goodDateString cs := by
  unfold strptimeDMY at h
  cases hp : parseDMY cs with
  | none => rw [hp] at h; simp at h
  | some t =>
    obtain ⟨d, m, y⟩ := t
    rw [hp] at h
    obtain ⟨⟨⟨hy1, hm1, hm2, hd1, hd2⟩, hy2⟩, hdt⟩ := mkDate_ok_valid h
    unfold parseDMY at hp
    split at hp
    next dcs mcs ycs hspl =>
      have hcs : cs = dcs ++ ('.' :: (mcs ++ ('.' :: ycs))) := by
        have hj := joinDot_splitDot cs
        rw [hspl] at hj
        rw [show joinDot [dcs, mcs, ycs] =
          dcs ++ ('.' :: (mcs ++ ('.' :: ycs))) from rfl] at hj
        rw [← hj]
      cases hfd : parseField12 1 31 dcs with
      | none => rw [hfd] at hp; simp at hp
      | some dv =>
        cases hfm : parseField12 1 12 mcs with
        | none => rw [hfd, hfm] at hp; simp at hp
        | some mv =>
          cases hfy : parseField4 ycs with
          | none => rw [hfd, hfm, hfy] at hp; simp at hp
          | some yv =>
            rw [hfd, hfm, hfy] at hp
            dsimp only at hp
            obtain ⟨hde, hme, hye⟩ : dv = d ∧ mv = m ∧ yv = y := by
              have h2 := Option.some.inj hp
              rw [Prod.mk.injEq, Prod.mk.injEq] at h2
              exact ⟨h2.1, h2.2.1, h2.2.2⟩
            obtain ⟨hdL, hdD, hdV, hdlo, hdhi⟩ := parseField12_some hfd
            obtain ⟨hmL, hmD, hmV, hmlo, hmhi⟩ := parseField12_some hfm
            obtain ⟨hyL, hyD, hyV⟩ := parseField4_some hfy
            rw [hdt] at hy1 hm1 hm2 hd1 hd2 hy2
            dsimp only at hy1 hm1 hm2 hd1 hd2 hy2
            refine ⟨dcs, mcs, ycs, hcs, hdD, hdL, hmD, hmL, hyD, hyL,
              by omega, by omega, by omega, by omega, ?_⟩
            rw [show digitsToNat ycs = y by omega, show digitsToNat mcs = m by omega,
              show digitsToNat dcs = d by omega]
            exact hd2
    next => simp at hp

/-! ## Helper facts about phone lookup -/

/-- Inversion of a successful first-index search: the index is in range,
holds the searched value, and every earlier slot differs. -/
theorem phoneIndexFirst_spec (ps : List Phone) (s : String) :
    ∀ i, phoneIndexFirst ps s = some i →
      i < ps.length ∧ ps[i]?.map Phone.value = some s ∧
        ∀ j, j < i → ps[j]?.map Phone.value ≠ some s := by
  induction ps with
  | nil =>
    intro i h
    simp [phoneIndexFirst] at h
  | cons p rest ih =>
    intro i h
    unfold phoneIndexFirst at h
    by_cases hp : p.value = s
    · rw [if_pos hp] at h
      obtain rfl := Option.some.inj h
      refine ⟨by simp, by simp [hp], ?_⟩
      intro j hj
      omega
    · rw [if_neg hp] at h
      cases hrest : phoneIndexFirst rest s with
      | none => rw [hrest] at h; simp at h
      | some k =>
        rw [hrest] at h
        simp at h
        obtain ⟨hk1, hk2, hk3⟩ := ih k hrest
        rw [← h]
        refine ⟨by simpa using hk1, by simpa using hk2, ?_⟩
        intro j hj
        cases j with
        | zero => simpa using hp
        | succ j2 =>
          have := hk3 j2 (by omega)
          simpa using this

/-! ## The claims -/

/-- C3: the claim says `getUpcomingBirthdays` computes a result totally for
every stored valid birthday including February 29; the code instead raises:
`"29.02.2024"` is accepted by the `Birthday` validator, yet with `today` in
the non-leap year 2023 the projection `replace(year=2023)` raises
`ValueError("day is out of range for month")`, so the whole call fails. -/
theorem c3_feb29_projection_raises :
    Birthday.new "29.02.2024" = .ok ⟨"29.02.2024"⟩ ∧
    (AddressBook.empty.add_record
        (((Record.new "Leap").add_birthday "29.02.2024").2)).get_upcoming_birthdays
        ⟨2023, 6, 10⟩ 7 = .error (.valueError "day is out of range for month") := by
  exact ⟨by decide, by decide⟩

/-- C4 counterexample: the claim states that `"1.1.2024"` is rejected, but
the code's `strptime("%d.%m.%Y")` accepts non-zero-padded day and month
fields, so construction succeeds. -/
theorem c4_counterexample_unpadded_accepted :
    Birthday.new "1.1.2024" = .ok ⟨"1.1.2024"⟩ := by decide

/-- C4 (amended): birthday construction succeeds exactly for strings of the
form day.month.year where day and month are one- or two-digit fields (zero
padding optional), the year has exactly four digits, and the triple denotes
a real calendar date with year at least 1; everything else fails with
`ValidationError("Invalid date format. Use DD.MM.YYYY")`.  In particular
`"31.02.2024"` and `"2024.01.01"` are rejected, while `"1.1.2024"` is
accepted. -/
theorem c4_birthday_format_amended (s : String) :
    (Birthday.new s = .ok ⟨s⟩ ↔ goodDateString s.data) ∧
    (¬ goodDateString s.data →
      Birthday.new s = .error (.valueError "Invalid date format. Use DD.MM.YYYY")) ∧
    Birthday.new "31.02.2024" =
      .error (.valueError "Invalid date format. Use DD.MM.YYYY") ∧
    Birthday.new "2024.01.01" =
      .error (.valueError "Invalid date format. Use DD.MM.YYYY") ∧
    Birthday.new "1.1.2024" = .ok ⟨"1.1.2024"⟩ := by
  refine ⟨?_, ?_, by decide, by decide, by decide⟩ <;> unfold Birthday.new
  · cases hs : strptimeDMY s.data with
    | ok dt =>
      have hg := good_of_strptimeDMY_ok _ _ hs
      exact ⟨fun _ => hg, fun _ => rfl⟩
    | error e =>
      constructor
      · intro hc
        simp at hc
      · intro hg
        obtain ⟨dt, hdt⟩ := strptimeDMY_ok_of_good _ hg
        rw [hdt] at hs
        exact absurd hs (by simp)
  · intro hng
    cases hs : strptimeDMY s.data with
    | ok dt => exact absurd (good_of_strptimeDMY_ok _ _ hs) hng
    | error e => rfl

/-- C4 witness: a zero-padded real date is accepted via the amended
characterisation, and a string denoting no real date is rejected via the
amended failure branch. -/
theorem c4_birthday_format_amended_witness :
    Birthday.new "09.06.2024" = .ok ⟨"09.06.2024"⟩ ∧
    Birthday.new "99.99.9999" =
      .error (.valueError "Invalid date format. Use DD.MM.YYYY") := by
  constructor
  · exact (c4_birthday_format_amended "09.06.2024").1.mpr
      ⟨['0', '9'], ['0', '6'], ['2', '0', '2', '4'],
        by decide, by decide, by decide, by decide, by decide, by decide,
        by decide, by decide, by decide, by decide, by decide, by decide⟩
  · refine (c4_birthday_format_amended "99.99.9999").2.1 ?_
    intro hg
    have hok := (c4_birthday_format_amended "99.99.9999").1.mpr hg
    have hbad : Birthday.new "99.99.9999" ≠ .ok ⟨"99.99.9999"⟩ := by decide
    exact hbad hok

/-- C5: phone construction succeeds exactly on length-10 all-digit strings,
round-trips the raw value, and fails otherwise with
`ValidationError("Phone number must contain 10 digits.")` (scoped to ASCII
inputs, where the model's digit test agrees with CPython's `str.isdigit`). -/
theorem c5_phone_validation (raw : String)
    (hascii : raw.data.all (fun c => c.toNat < 128) = true) :
    (Phone.new raw = .ok ⟨raw⟩ ↔
      (raw.length = 10 ∧ raw.data.all Char.isDigit = true)) ∧
    (¬ (raw.length = 10 ∧ raw.data.all Char.isDigit = true) →
      Phone.new raw = .error (.valueError "Phone number must contain 10 digits.")) := by
  have hlen : raw.length = raw.data.length := rfl
  by_cases hc : raw.length = 10 ∧ pyIsdigit raw = true
  · have hall : raw.data.all Char.isDigit = true := by
      have := hc.2
      unfold pyIsdigit at this
      rw [Bool.and_eq_true] at this
      exact this.2
    constructor
    · unfold Phone.new
      rw [if_pos hc]
      exact ⟨fun _ => ⟨hc.1, hall⟩, fun _ => rfl⟩
    · intro hn
      exact absurd ⟨hc.1, hall⟩ hn
  · have hnr : ¬ (raw.length = 10 ∧ raw.data.all Char.isDigit = true) := by
      intro ⟨h10, hall⟩
      apply hc
      refine ⟨h10, ?_⟩
      unfold pyIsdigit
      rw [Bool.and_eq_true]
      refine ⟨?_, hall⟩
      have : raw.data.length = 10 := by omega
      cases hdata : raw.data with
      | nil => rw [hdata] at this; simp at this
      | cons c cs => simp
    constructor
    · unfold Phone.new
      rw [if_neg hc]
      constructor
      · intro hco
        exact absurd hco (by simp)
      · intro hco
        exact absurd hco hnr
    · intro _
      unfold Phone.new
      rw [if_neg hc]

/-- C5 witness: a ten-digit string is accepted and round-trips; a short
string and a non-digit string are rejected with the validation message. -/
theorem c5_phone_validation_witness :
    Phone.new "0123456789" = .ok ⟨"0123456789"⟩ ∧
    Phone.new "12345" = .error (.valueError "Phone number must contain 10 digits.") ∧
    Phone.new "12345abcde" = .error (.valueError "Phone number must contain 10 digits.") := by
  refine ⟨?_, ?_, ?_⟩
  · exact (c5_phone_validation "0123456789" (by decide)).1.mpr ⟨by decide, by decide⟩
  · exact (c5_phone_validation "12345" (by decide)).2 (by decide)
  · exact (c5_phone_validation "12345abcde" (by decide)).2 (by decide)

/-- C6: when the record contains the old phone value, `editPhone` replaces
its first occurrence in place (the index is the first value match) and every
other slot is unchanged; when the old value is absent it fails with
`NotFoundError("Old phone number not found")` and the record is unchanged;
when the new value is invalid it fails with the validator's error and the
record is unchanged (validation runs before the slot assignment). -/
theorem c6_edit_phone (r : Record) (old_phone new_phone : String) :
    (∀ i : Nat, phoneIndexFirst r.phones old_phone = some i →
      (∀ p : Phone, Phone.new new_phone = .ok p →
        r.edit_phone old_phone new_phone =
          (.ok (), { r with phones := r.phones.set i p }) ∧
        (r.phones.set i p).length = r.phones.length ∧
        (r.phones.set i p)[i]? = some p ∧
        (∀ j : Nat, j ≠ i → (r.phones.set i p)[j]? = r.phones[j]?)) ∧
      (∀ e : PyError, Phone.new new_phone = .error e →
        r.edit_phone old_phone new_phone = (.error e, r)) ∧
      i < r.phones.length ∧ r.phones[i]?.map Phone.value = some old_phone ∧
      (∀ j, j < i → r.phones[j]?.map Phone.value ≠ some old_phone)) ∧
    (phoneIndexFirst r.phones old_phone = none →
      r.edit_phone old_phone new_phone =
        (.error (.valueError "Old phone number not found"), r)) := by
  constructor
  · intro i hi
    obtain ⟨hlt, hval, hfirst⟩ := phoneIndexFirst_spec r.phones old_phone i hi
    refine ⟨?_, ?_, hlt, hval, hfirst⟩
    · intro p hp
      refine ⟨?_, by simp, ?_, ?_⟩
      · unfold Record.edit_phone
        rw [hi, hp]
      · exact List.getElem?_set_eq_of_lt p hlt
      · intro j hj
        exact List.getElem?_set_ne (fun he => hj he.symm)
    · intro e he
      unfold Record.edit_phone
      rw [hi, he]
  · intro hn
    unfold Record.edit_phone
    rw [hn]

/-- C6 witness: on a record with a duplicate phone value, editing replaces
only the first occurrence; a miss and an invalid new number leave the record
untouched with the documented errors. -/
theorem c6_edit_phone_witness :
    (Record.mk "Ann" [⟨"1111111111"⟩, ⟨"2222222222"⟩, ⟨"1111111111"⟩] none).edit_phone
        "1111111111" "3333333333" =
      (.ok (), Record.mk "Ann" [⟨"3333333333"⟩, ⟨"2222222222"⟩, ⟨"1111111111"⟩] none) ∧
    (Record.mk "Ann" [⟨"1111111111"⟩] none).edit_phone "9999999999" "3333333333" =
      (.error (.valueError "Old phone number not found"),
        Record.mk "Ann" [⟨"1111111111"⟩] none) ∧
    (Record.mk "Ann" [⟨"1111111111"⟩] none).edit_phone "1111111111" "12" =
      (.error (.valueError "Phone number must contain 10 digits."),
        Record.mk "Ann" [⟨"1111111111"⟩] none) := by
  refine ⟨?_, ?_, ?_⟩
  · have h := (c6_edit_phone
      (Record.mk "Ann" [⟨"1111111111"⟩, ⟨"2222222222"⟩, ⟨"1111111111"⟩] none)
      "1111111111" "3333333333").1 0 (by decide)
    have h2 := (h.1 ⟨"3333333333"⟩ (by decide)).1
    exact h2
  · exact (c6_edit_phone (Record.mk "Ann" [⟨"1111111111"⟩] none)
      "9999999999" "3333333333").2 (by decide)
  · have h := (c6_edit_phone (Record.mk "Ann" [⟨"1111111111"⟩] none)
      "1111111111" "12").1 0 (by decide)
    exact h.2.1 (.valueError "Phone number must contain 10 digits.") (by decide)

/-- C7: `addRecord` is total, a subsequent `find` with the record's name
returns the very record (all fields equal), re-adding under the same name
overwrites (last write wins), and both key uniqueness and the key-equals-name
association are preserved, so the book holds at most one record per name. -/
theorem c7_add_record_find (b : AddressBook) (r r2 : Record) :
    ((b.add_record r).find r.name = some r) ∧
    (r2.name = r.name → ((b.add_record r2).add_record r).find r2.name = some r) ∧
    ((b.data.map Prod.fst).Nodup → ((b.add_record r).data.map Prod.fst).Nodup) ∧
    ((∀ p ∈ b.data, p.2.name = p.1) →
      ∀ p ∈ (b.add_record r).data, p.2.name = p.1) := by
  refine ⟨?_, ?_, ?_, ?_⟩
  · exact dictGet_dictSet_self b.data r.name r
  · intro hname
    rw [hname]
    exact dictGet_dictSet_self (b.add_record r2).data r.name r
  · intro hnd
    exact nodup_fst_dictSet b.data r.name r hnd
  · intro hw p hp
    rcases mem_dictSet b.data r.name r p hp with heq | hmem
    · rw [heq]
    · exact hw p hmem

/-- C7 witness: adding and finding a concrete record, and overwriting it by
a second record with the same name. -/
theorem c7_add_record_find_witness :
    (AddressBook.empty.add_record (Record.mk "Bob" [⟨"0123456789"⟩] none)).find "Bob" =
      some (Record.mk "Bob" [⟨"0123456789"⟩] none) ∧
    ((AddressBook.empty.add_record (Record.mk "Bob" [⟨"0123456789"⟩] none)).add_record
        (Record.mk "Bob" [] (some ⟨"01.01.2000"⟩))).find "Bob" =
      some (Record.mk "Bob" [] (some ⟨"01.01.2000"⟩)) := by
  constructor
  · exact (c7_add_record_find AddressBook.empty
      (Record.mk "Bob" [⟨"0123456789"⟩] none) (Record.mk "Bob" [] none)).1
  · exact (c7_add_record_find AddressBook.empty
      (Record.mk "Bob" [] (some ⟨"01.01.2000"⟩))
      (Record.mk "Bob" [⟨"0123456789"⟩] none)).2.1 rfl

/-- C8 counterexample: the claim says the lookup-miss error is a kind
distinguishable from the validation error, but the code raises plain
`ValueError` for both — the removal miss and the phone validation failure
carry the same exception kind and differ only in message. -/
theorem c8_counterexample_same_kind :
    ((Record.new "Ann").remove_phone "0123456789").1 =
      .error (.valueError "Phone number not found") ∧
    Phone.new "12" = .error (.valueError "Phone number must contain 10 digits.") ∧
    PyError.kindName (.valueError "Phone number not found") =
      PyError.kindName (.valueError "Phone number must contain 10 digits.") := by
  exact ⟨by decide, by decide, rfl⟩

/-- C8 (amended): when `removePhone` and `editPhone` find no matching phone
they fail with `ValueError` — the same exception kind the validators use,
distinguishable only by message — carrying the messages
"Phone number not found" and "Old phone number not found" respectively, and
leave the record unchanged. -/
theorem c8_notfound_messages (r : Record) (phone old_phone new_phone : String) :
    (r.find_phone phone = none →
      r.remove_phone phone = (.error (.valueError "Phone number not found"), r) ∧
      (PyError.valueError "Phone number not found").kindName = "ValueError") ∧
    (phoneIndexFirst r.phones old_phone = none →
      r.edit_phone old_phone new_phone =
        (.error (.valueError "Old phone number not found"), r) ∧
      (PyError.valueError "Old phone number not found").kindName = "ValueError") := by
  constructor
  · intro hn
    refine ⟨?_, rfl⟩
    unfold Record.remove_phone
    rw [hn]
  · intro hn
    refine ⟨?_, rfl⟩
    unfold Record.edit_phone
    rw [hn]

/-- C8 witness: a record without the searched numbers produces both
not-found errors with their exact messages. -/
theorem c8_notfound_messages_witness :
    (Record.mk "Ann" [⟨"1234567890"⟩] none).remove_phone "0000000000" =
      (.error (.valueError "Phone number not found"),
        Record.mk "Ann" [⟨"1234567890"⟩] none) ∧
    (Record.mk "Ann" [⟨"1234567890"⟩] none).edit_phone "0000000000" "1111111111" =
      (.error (.valueError "Old phone number not found"),
        Record.mk "Ann" [⟨"1234567890"⟩] none) := by
  constructor
  · exact ((c8_notfound_messages (Record.mk "Ann" [⟨"1234567890"⟩] none)
      "0000000000" "x" "y").1 (by decide)).1
  · exact ((c8_notfound_messages (Record.mk "Ann" [⟨"1234567890"⟩] none)
      "x" "0000000000" "1111111111").2 (by decide)).1

/-- C10: record construction performs no validation of the name — any
string, including the empty string, yields a record with that exact name,
no phones and no birthday — and `addRecord` stores the record under that
exact string, so a record keyed by the empty string is representable. -/
theorem c10_record_name_unvalidated (name : String) (b : AddressBook) :
    Record.new name = ⟨name, [], none⟩ ∧
    (b.add_record (Record.new name)).find name = some (Record.new name) ∧
    (AddressBook.empty.add_record (Record.new "")).find "" = some (Record.new "") := by
  refine ⟨rfl, ?_, ?_⟩
  · exact dictGet_dictSet_self b.data name (Record.new name)
  · exact dictGet_dictSet_self [] "" (Record.new "")

/-- C2: weekend adjustment — a date on Saturday (weekday 5) is shifted by
two days and one on Sunday (weekday 6) by one day, both landing on Monday;
any other weekday is emitted unchanged; the shift helper is total over all
seven weekday values, its `days_ahead <= 0` branch resolving the zero case
as a full 7-day forward shift; and in the concrete scenario
today = 10.06.2024 with window 7, the record with Saturday birthday
15.06.2024 is listed with congratulation date 17.06.2024. -/
theorem c2_weekend_adjustment :
    (∀ dt : Date, dt.weekday < 5 → adjust_for_weekend dt = dt) ∧
    (∀ dt : Date, dt.okMD → dt.weekday = 5 →
      adjust_for_weekend dt = dt.addDays 2 ∧ (adjust_for_weekend dt).weekday = 0) ∧
    (∀ dt : Date, dt.okMD → dt.weekday = 6 →
      adjust_for_weekend dt = dt.addDays 1 ∧ (adjust_for_weekend dt).weekday = 0) ∧
    (∀ dt : Date, find_next_weekday dt 0 = dt.addDays (7 - dt.weekday) ∧
      1 ≤ 7 - dt.weekday ∧ 7 - dt.weekday ≤ 7) ∧
    (∀ dt : Date, dt.weekday = 0 → find_next_weekday dt 0 = dt.addDays 7) ∧
    (AddressBook.empty.add_record
        (((Record.new "John").add_birthday "15.06.2024").2)).get_upcoming_birthdays
        ⟨2024, 6, 10⟩ 7 = .ok [⟨"John", "17.06.2024"⟩] := by
  refine ⟨?_, ?_, ?_, ?_, ?_, by decide⟩
  · intro dt hw
    unfold adjust_for_weekend
    rw [if_neg (by omega)]
  · intro dt hok hw
    have he : adjust_for_weekend dt = dt.addDays 2 := by
      unfold adjust_for_weekend
      rw [if_pos (by omega), find_next_weekday_zero, hw]
    refine ⟨he, ?_⟩
    rw [he, Date.weekday_addDays dt hok 2, hw]
  · intro dt hok hw
    have he : adjust_for_weekend dt = dt.addDays 1 := by
      unfold adjust_for_weekend
      rw [if_pos (by omega), find_next_weekday_zero, hw]
    refine ⟨he, ?_⟩
    rw [he, Date.weekday_addDays dt hok 1, hw]
  · intro dt
    have h7 := dt.weekday_lt_7
    exact ⟨find_next_weekday_zero dt, by omega, by omega⟩
  · intro dt hw
    rw [find_next_weekday_zero, hw]

/-- C2 witness: the Saturday 15.06.2024 shifts to Monday 17.06.2024, the
Sunday 16.06.2024 shifts to the same Monday, the Friday 14.06.2024 is
unchanged, and the helper applied to the Monday 10.06.2024 jumps a full
week. -/
theorem c2_weekend_adjustment_witness :
    adjust_for_weekend ⟨2024, 6, 15⟩ = ⟨2024, 6, 17⟩ ∧
    adjust_for_weekend ⟨2024, 6, 16⟩ = ⟨2024, 6, 17⟩ ∧
    adjust_for_weekend ⟨2024, 6, 14⟩ = ⟨2024, 6, 14⟩ ∧
    find_next_weekday ⟨2024, 6, 10⟩ 0 = ⟨2024, 6, 17⟩ := by
  refine ⟨?_, ?_, ?_, ?_⟩
  · have h2 := (c2_weekend_adjustment.2.1 ⟨2024, 6, 15⟩ (by decide) (by decide)).1
    rw [h2]
    decide
  · have h2 := (c2_weekend_adjustment.2.2.1 ⟨2024, 6, 16⟩ (by decide) (by decide)).1
    rw [h2]
    decide
  · exact c2_weekend_adjustment.1 ⟨2024, 6, 14⟩ (by decide)
  · have h2 := c2_weekend_adjustment.2.2.2.2.1 ⟨2024, 6, 10⟩ (by decide)
    rw [h2]
    decide

/-- C9: membership in the upcoming list is decided on the projected date
before the weekend shift and never re-checked afterwards: a record whose
projected birthday lies within the window but falls on a Saturday or Sunday
is still listed, its emitted congratulation date is the shifted date, and
that date lies `daysUntil + (7 - weekday)` days after today — hence up to
`windowDays + 2` days, strictly beyond the window when `daysUntil` is at
the window edge. -/
theorem c9_membership_before_shift (b : AddressBook) (today : Date) (w : Int)
    (res : List BEntry) (r : Record) (bd : Birthday) (d0 bty : Date)
    (hrun : b.get_upcoming_birthdays today w = .ok res)
    (hr : r ∈ b.records)
    (hb : r.birthday = some bd)
    (hs : strptimeDMY bd.value.data = .ok d0)
    (hp : projectBirthday today d0 = .ok bty)
    (hwin : 0 ≤ (bty.toOrdinal : Int) - (today.toOrdinal : Int) ∧
      (bty.toOrdinal : Int) - (today.toOrdinal : Int) ≤ w)
    (hwe : 5 ≤ bty.weekday) :
    ∃ e ∈ res, e.name = r.name ∧
      e.birthday = date_to_string (bty.addDays (7 - bty.weekday)) ∧
      ((bty.addDays (7 - bty.weekday)).toOrdinal : Int) - (today.toOrdinal : Int) =
        ((bty.toOrdinal : Int) - (today.toOrdinal : Int)) +
          ((7 : Int) - (bty.weekday : Int)) := by
  have hok : bty.okMD := (projectBirthday_valid hp).1
  have hadj : adjust_for_weekend bty = bty.addDays (7 - bty.weekday) := by
    unfold adjust_for_weekend
    rw [if_pos hwe, find_next_weekday_zero]
  have hpr : processRecord today w r =
      .ok (some ⟨r.name, date_to_string (adjust_for_weekend bty)⟩) := by
    rw [processRecord_some w hb hs hp, if_pos hwin]
  have hmem := collect_mem_of_some hrun hr hpr
  refine ⟨_, hmem, rfl, by rw [hadj], ?_⟩
  rw [Date.toOrdinal_addDays bty hok (7 - bty.weekday)]
  have h7 := bty.weekday_lt_7
  omega

/-- C9 witness: today is Thursday 13.06.2024 with window 2; the Saturday
birthday 15.06.2024 sits exactly at the window edge (2 days ahead), is
still listed, and its emitted date 17.06.2024 is 4 = windowDays + 2 days
ahead — strictly outside the window. -/
theorem c9_membership_before_shift_witness :
    (∃ e ∈ [BEntry.mk "John" "17.06.2024"], e.name = "John" ∧
      e.birthday = date_to_string ((Date.mk 2024 6 15).addDays
        (7 - (Date.mk 2024 6 15).weekday)) ∧
      (((Date.mk 2024 6 15).addDays
          (7 - (Date.mk 2024 6 15).weekday)).toOrdinal : Int) -
          ((Date.mk 2024 6 13).toOrdinal : Int) =
        (((Date.mk 2024 6 15).toOrdinal : Int) -
          ((Date.mk 2024 6 13).toOrdinal : Int)) +
          ((7 : Int) - ((Date.mk 2024 6 15).weekday : Int))) ∧
    ((Date.mk 2024 6 15).toOrdinal : Int) - ((Date.mk 2024 6 13).toOrdinal : Int) = 2 ∧
    (((Date.mk 2024 6 15).addDays
        (7 - (Date.mk 2024 6 15).weekday)).toOrdinal : Int) -
        ((Date.mk 2024 6 13).toOrdinal : Int) = 2 + 2 := by
  refine ⟨?_, by decide, by decide⟩
  have h := c9_membership_before_shift
    (AddressBook.empty.add_record (((Record.new "John").add_birthday "15.06.2024").2))
    ⟨2024, 6, 13⟩ 2 [BEntry.mk "John" "17.06.2024"]
    (((Record.new "John").add_birthday "15.06.2024").2)
    ⟨"15.06.2024"⟩ ⟨2024, 6, 15⟩ ⟨2024, 6, 15⟩
    (by decide) (by decide) (by decide) (by decide) (by decide)
    (by decide) (by decide)
  exact h

/-- C1: for a successful run of `getUpcomingBirthdays`, a record with no
birthday never appears in the result; a record whose stored birthday parses
to a date and projects — onto today's year, re-projected onto the next year
when strictly before today — to `bty` appears exactly when
`0 ≤ (bty - today).days ≤ windowDays`, both bounds inclusive. -/
theorem c1_upcoming_window_membership (b : AddressBook) (today : Date) (w : Int)
    (res : List BEntry) (r : Record)
    (hnd : (b.records.map Record.name).Nodup)
    (hrun : b.get_upcoming_birthdays today w = .ok res)
    (hr : r ∈ b.records) :
    (r.birthday = none → ¬ ∃ e ∈ res, e.name = r.name) ∧
    (∀ (bd : Birthday) (d0 bty : Date), r.birthday = some bd →
      strptimeDMY bd.value.data = .ok d0 →
      projectBirthday today d0 = .ok bty →
      ((∃ e ∈ res, e.name = r.name) ↔
        (0 ≤ (bty.toOrdinal : Int) - (today.toOrdinal : Int) ∧
          (bty.toOrdinal : Int) - (today.toOrdinal : Int) ≤ w))) := by
  constructor
  · intro hnone hex
    obtain ⟨e, he, hen⟩ := hex
    obtain ⟨r', hr', hpr'⟩ := collect_exists_of_mem hrun he
    have hname : r'.name = r.name := by
      rw [← processRecord_name hpr']
      exact hen
    have hrr : r' = r := List.inj_on_of_nodup_map hnd hr' hr hname
    subst hrr
    rw [processRecord_none hnone] at hpr'
    simp at hpr'
  · intro bd d0 bty hb hs hp
    have heq := processRecord_some w hb hs hp
    constructor
    · rintro ⟨e, he, hen⟩
      obtain ⟨r', hr', hpr'⟩ := collect_exists_of_mem hrun he
      have hname : r'.name = r.name := by
        rw [← processRecord_name hpr']
        exact hen
      have hrr : r' = r := List.inj_on_of_nodup_map hnd hr' hr hname
      subst hrr
      rw [heq] at hpr'
      by_cases hwin : 0 ≤ (bty.toOrdinal : Int) - (today.toOrdinal : Int) ∧
          (bty.toOrdinal : Int) - (today.toOrdinal : Int) ≤ w
      · exact hwin
      · rw [if_neg hwin] at hpr'
        simp at hpr'
    · intro hwin
      have hpr : processRecord today w r =
          .ok (some ⟨r.name, date_to_string (adjust_for_weekend bty)⟩) := by
        rw [heq, if_pos hwin]
      exact ⟨_, collect_mem_of_some hrun hr hpr, rfl⟩

/-- C1 witness: with today = 10.06.2024 and window 7, a birthday exactly 7
days ahead (17.06.2024, a Monday) is included, and one 8 days ahead
(18.06.2024) is excluded. -/
theorem c1_upcoming_window_membership_witness :
    (∃ e ∈ [BEntry.mk "Mon" "17.06.2024"], e.name = "Mon") ∧
    ¬ (∃ e ∈ [BEntry.mk "Mon" "17.06.2024"], e.name = "Tue") := by
  have hmon := (c1_upcoming_window_membership
    ((AddressBook.empty.add_record
        (((Record.new "Mon").add_birthday "17.06.2024").2)).add_record
      (((Record.new "Tue").add_birthday "18.06.2024").2))
    ⟨2024, 6, 10⟩ 7 [BEntry.mk "Mon" "17.06.2024"]
    (((Record.new "Mon").add_birthday "17.06.2024").2)
    (by decide) (by decide) (by decide)).2
    ⟨"17.06.2024"⟩ ⟨2024, 6, 17⟩ ⟨2024, 6, 17⟩ (by decide) (by decide) (by decide)
  have htue := (c1_upcoming_window_membership
    ((AddressBook.empty.add_record
        (((Record.new "Mon").add_birthday "17.06.2024").2)).add_record
      (((Record.new "Tue").add_birthday "18.06.2024").2))
    ⟨2024, 6, 10⟩ 7 [BEntry.mk "Mon" "17.06.2024"]
    (((Record.new "Tue").add_birthday "18.06.2024").2)
    (by decide) (by decide) (by decide)).2
    ⟨"18.06.2024"⟩ ⟨2024, 6, 18⟩ ⟨2024, 6, 18⟩ (by decide) (by decide) (by decide)
  constructor
  · exact hmon.mpr (by decide)
  · intro hex
    exact absurd (htue.mp hex) (by decide)
